import Mathlib

/-!
Shallow embedding of the fetch-parse-filter pipeline of `src/app.py`
(function `fetch_news_cached`, lines 39-138), together with proofs of the
behavioural properties stated in the specification.

Modelling conventions:
* Python strings are Lean `String`s; Python `needle in hay` is `hasSubStr`,
  `str.lower()` is `lowerStr`, `str.strip()` is `stripStr`, slicing `s[:16]`
  is `takePre 16 s`, and `rsplit(sep, 1)` is `rsplitLast`.
* The response bytes of an HTTP call are modelled as a `String`; a call that
  raises (transport error, timeout, or `raise_for_status` on a non-success
  status) is the `HttpAttempt.failure` outcome, a call that returns a body is
  `HttpAttempt.success body`.
* Instants on the UTC timeline are integers (seconds).  The external library
  functions used by the code — `email.utils.parsedate_to_datetime` (raising
  modelled as `none`, with the `tzinfo` normalisation of lines 101-104 folded
  into the returned UTC instant), `strftime`, `html.unescape` and
  `ET.fromstring` followed by the findall walk of the channel items — are
  abstracted into an environment `Env`, so every theorem quantifies over
  their behaviour.
* `xml.etree.ElementTree.ParseError` renders as the expat error text followed
  by a line/column suffix; `ParseErr`/`renderParseErr` capture that shape.
-/

set_option autoImplicit false

namespace TLDNews

/-- Boolean test that `pat` is a leading segment of `l` (character lists). -/
def startsWith : List Char → List Char → Bool
  | _, [] => true
  | [], _ :: _ => false
  | a :: as, b :: bs => a == b && startsWith as bs

/-- Model of the Python substring test `pat in hay` on character lists. -/
def hasSub (pat : List Char) : List Char → Bool
  | [] => startsWith [] pat
  | c :: rest => startsWith (c :: rest) pat || hasSub pat rest

/-- Model of Python `needle in hay` for strings. -/
def hasSubStr (hay needle : String) : Bool :=
  hasSub needle.data hay.data

/-- Index of the last occurrence of `pat` in the list, if any. -/
def findLast (pat : List Char) : List Char → Option Nat
  | [] => none
  | c :: rest =>
    match findLast pat rest with
    | some i => some (i + 1)
    | none => if startsWith (c :: rest) pat then some 0 else none

/-- Model of Python `s.rsplit(sep, 1)` when `sep` occurs in `s`: the pair
(part before the last occurrence, part after it).  When `sep` does not
occur, the code never calls this, and we return `(s, "")`. -/
def rsplitLast (s sep : String) : String × String :=
  match findLast sep.data s.data with
  | some i => (⟨s.data.take i⟩, ⟨s.data.drop (i + sep.data.length)⟩)
  | none => (s, "")

/-- Model of Python `str.lower()`. -/
def lowerStr (s : String) : String :=
  ⟨s.data.map Char.toLower⟩

/-- Model of `t.replace("[", "(").replace("]", ")")` (line 88): a single-pass
character map, which coincides with the two single-character replacements. -/
def mapBrackets (s : String) : String :=
  ⟨s.data.map fun c => if c = '[' then '(' else if c = ']' then ')' else c⟩

/-- Model of Python `str.strip()`. -/
def stripStr (s : String) : String :=
  ⟨((s.data.dropWhile Char.isWhitespace).reverse.dropWhile Char.isWhitespace).reverse⟩

/-- Model of the Python slice `s[:n]`. -/
def takePre (n : Nat) (s : String) : String :=
  ⟨s.data.take n⟩

/-- Model of the Python idiom `el.text if el is not None and el.text else d`:
`none` is a missing element or missing text, `some ""` is empty text, and
both are falsy, yielding the default. -/
def textOr (o : Option String) (d : String) : String :=
  match o with
  | some s => if s = "" then d else s
  | none => d

/-- One `<item>` node under the `<channel>` element, with the texts of the
child elements the code reads (lines 80-86 and 121). -/
structure XmlItem where
  title : Option String
  link : Option String
  pubDate : Option String
  source : Option String
  deriving DecidableEq, Repr

/-- The dictionary appended at lines 129-134 (an ArticleRecord). -/
structure Article where
  title : String
  link : String
  date : String
  source : String
  deriving DecidableEq, Repr

/-- Rendering of `str(e)` for an `ElementTree.ParseError`: pyexpat composes
the message as the expat error string followed by ": line L, column C". -/
structure ParseErr where
  msg : String
  line : Nat
  col : Nat
  deriving DecidableEq, Repr

/-- The error string carried by a `ParseError`. -/
def renderParseErr (e : ParseErr) : String :=
  e.msg ++ (": line " ++ (toString e.line ++ (", column " ++ toString e.col)))

/-- Behaviour of the external library functions the pipeline calls.
`parsedate` models `email.utils.parsedate_to_datetime` normalised to a UTC
instant (lines 100-104; `none` models a raise), `formatDate` models
`dt.strftime("%b %d, %Y")` (line 109), `unescape` models `html.unescape`
(line 88), `parseXml` models `ET.fromstring` plus
the findall over ./channel/item (lines 69 and 76; the error is the raised
`ParseError`), and `now` models `datetime.now(timezone.utc)` (line 73). -/
structure Env where
  unescape : String → String
  parsedate : String → Option Int
  formatDate : Int → String
  parseXml : String → Except ParseErr (List XmlItem)
  now : Int

/-- Outcome of one `requests.get(...)` call (plus `raise_for_status`):
`failure` is any raised exception — transport error, timeout, or
non-success status. -/
inductive HttpAttempt where
  | failure
  | success (content : String)
  deriving DecidableEq, Repr

/-- The root marker checked at line 56: the byte sequence <rss must occur
in the response content of the primary provider. -/
def rssMarker : String := "<rss"

/-- The secondary (Bing) attempt, lines 60-66: on success the bytes are used
with `is_google = False`; on failure the static message is returned.  The
second component counts this as one secondary attempt. -/
def bingStep (b : HttpAttempt) : Except String (String × Bool) × Nat :=
  match b with
  | .success c => (.ok (c, false), 1)
  | .failure => (.error "Failed to load feeds.", 1)

/-- The fetch phase, lines 53-66: primary (Google) attempt, with fallback to
the secondary on a raise or on a body lacking the `<rss` marker.  The second
component is the number of secondary attempts made. -/
def fetchXmlTrace (g b : HttpAttempt) : Except String (String × Bool) × Nat :=
  match g with
  | .success c => if hasSubStr c rssMarker then (.ok (c, true), 0) else bingStep b
  | .failure => bingStep b

/-- The fetch phase result: either `(bytes, is_google)` or the static
failure message. -/
def fetchXml (g b : HttpAttempt) : Except String (String × Bool) :=
  (fetchXmlTrace g b).1

/-- `clean_title` of line 88: HTML-unescape then normalise square brackets. -/
def cleanTitle (env : Env) (item : XmlItem) : String :=
  mapBrackets (env.unescape (textOr item.title "No Title"))

/-- The strict headline filter, lines 90-95: with a truthy (non-empty)
keyword collection the lowercased cleaned title must contain at least one
keyword; an empty collection leaves the guard untaken, so every item
passes. -/
def keywordPass (kw : List String) (clean_title : String) : Bool :=
  if kw = [] then true
  else kw.any fun w => hasSubStr (lowerStr clean_title) w

/-- The 14-day filter and date display, lines 97-113: `none` means the item
is skipped (`continue`); otherwise the display string is returned. -/
def dateResult (env : Env) (cutoff : Int) (pub_date_raw : String) : Option String :=
  if pub_date_raw = "" then some "Recent"
  else
    match env.parsedate pub_date_raw with
    | some dt => if dt < cutoff then none else some (env.formatDate dt)
    | none => some (takePre 16 pub_date_raw)

/-- The source attribution and title split, lines 115-127.  The input is the
cleaned title; the output is the (possibly split) retained title and the
source. -/
def splitSource (is_google : Bool) (source_el : Option String) (t : String) : String × String :=
  if is_google && hasSubStr t " - " then
    rsplitLast t " - "
  else if !is_google then
    match source_el with
    | some s =>
      if s = "" then
        (if hasSubStr t " - " then rsplitLast t " - " else (t, "Industry News"))
      else (t, s)
    | none =>
      if hasSubStr t " - " then rsplitLast t " - " else (t, "Industry News")
  else (t, "Industry News")

/-- Modelled from the spec: step 9 of the Feed Parser algorithm in its own
wording — primary provider: split on the last separator when present;
secondary provider: prefer an explicit source element, falling back to the
separator split; otherwise the literal placeholder. -/
def splitSourceSpec (is_google : Bool) (source_el : Option String) (t : String) : String × String :=
  if is_google then
    if hasSubStr t " - " then rsplitLast t " - " else (t, "Industry News")
  else
    match source_el with
    | some s =>
      if s = "" then
        (if hasSubStr t " - " then rsplitLast t " - " else (t, "Industry News"))
      else (t, s)
    | none =>
      if hasSubStr t " - " then rsplitLast t " - " else (t, "Industry News")

/-- Processing of a single `<item>`, lines 80-134: `none` when one of the
two `continue` statements skips the item, otherwise the appended record. -/
def processItem (env : Env) (cutoff : Int) (is_google : Bool) (kw : List String)
    (item : XmlItem) : Option Article :=
  if keywordPass kw (cleanTitle env item) then
    match dateResult env cutoff (textOr item.pubDate "") with
    | some date_str =>
      let p := splitSource is_google item.source (cleanTitle env item)
      some { title := stripStr p.1, link := textOr item.link "#",
             date := date_str, source := stripStr p.2 }
    | none => none
  else none

/-- The item loop, lines 76-134: walk the items in document order,
breaking once 15 articles have been accepted. -/
def parseLoop (env : Env) (cutoff : Int) (is_google : Bool) (kw : List String) :
    List XmlItem → List Article → List Article
  | [], acc => acc
  | item :: rest, acc =>
    if 15 ≤ acc.length then acc
    else
      match processItem env cutoff is_google kw item with
      | some a => parseLoop env cutoff is_google kw rest (acc ++ [a])
      | none => parseLoop env cutoff is_google kw rest acc

/-- The recency cutoff of lines 73-74: evaluation time minus 14 days
(seconds on the UTC timeline). -/
def cutoffOf (now : Int) : Int := now - 14 * 86400

/-- `fetch_news_cached`, lines 39-138, with the network abstracted into the
outcomes of the primary and secondary calls: fetch with fallback, parse,
then the bounded filtering loop.  Returns `(articles, error)`. -/
def fetch_news_cached (env : Env) (g b : HttpAttempt) (title_must_include : List String) :
    Option (List Article) × Option String :=
  match fetchXml g b with
  | .error msg => (none, some msg)
  | .ok (xml_data, is_google) =>
    match env.parseXml xml_data with
    | .error e => (none, some (renderParseErr e))
    | .ok items =>
      (some (parseLoop env (cutoffOf env.now) is_google title_must_include items []), none)

/-! Concrete fixtures used by the witness theorems. -/

/-- A concrete environment: the date string D0 parses to instant 0, OLD to
-1, anything else fails; one well-formed XML body parses to an empty item
list, every other body raises a parse error. -/
def envW : Env where
  unescape := fun s => s
  parsedate := fun s => if s = "D0" then some 0 else if s = "OLD" then some (-1) else none
  formatDate := fun _ => "Jan 01, 1970"
  parseXml := fun xml =>
    if xml = "<rss><channel></channel></rss>" then Except.ok []
    else Except.error ⟨"syntax error", 1, 0⟩
  now := 14 * 86400

/-- A primary response carrying the rss marker and a body `envW` parses. -/
def gOkW : HttpAttempt := .success "<rss><channel></channel></rss>"

/-- An item dated at the cutoff instant. -/
def itemD0 : XmlItem :=
  { title := some "Tire Recall Notice", link := some "http://x",
    pubDate := some "D0", source := none }

/-- An item whose title contains none of the recall keywords. -/
def itemNoKw : XmlItem :=
  { title := some "Tire Maker Expands Plant", link := some "http://x",
    pubDate := some "D0", source := none }

/-- The title-split scenario item from the spec. -/
def itemSplitW : XmlItem :=
  { title := some "Acme Corp Buys Rival Fleet - TruckingNews", link := some "http://x",
    pubDate := some "D0", source := none }

/-- An item whose only occurrence of the keyword lies in the source
suffix after the final separator. -/
def itemSuffix : XmlItem :=
  { title := some "Fleet Market Update - NHTSA Recall News", link := some "http://y",
    pubDate := some "D0", source := none }

/-! Helper lemmas about the loop and the string model. -/

theorem parseLoop_of_full (env : Env) (c : Int) (isg : Bool) (kw : List String) :
    ∀ (items : List XmlItem) (acc : List Article), 15 ≤ acc.length →
      parseLoop env c isg kw items acc = acc := by
  intro items
  induction items with
  | nil => intro acc _; rfl
  | cons item rest ih =>
    intro acc h
    simp only [parseLoop]
    rw [if_pos h]

theorem parseLoop_length_le (env : Env) (c : Int) (isg : Bool) (kw : List String) :
    ∀ (items : List XmlItem) (acc : List Article), acc.length ≤ 15 →
      (parseLoop env c isg kw items acc).length ≤ 15 := by
  intro items
  induction items with
  | nil => intro acc h; exact h
  | cons item rest ih =>
    intro acc h
    simp only [parseLoop]
    by_cases hc : 15 ≤ acc.length
    · rw [if_pos hc]; exact h
    · rw [if_neg hc]
      cases processItem env c isg kw item with
      | some a =>
        refine ih (acc ++ [a]) ?_
        simp only [List.length_append, List.length_singleton]
        omega
      | none => exact ih acc h

theorem parseLoop_skip (env : Env) (c : Int) (isg : Bool) (kw : List String)
    (item : XmlItem) (h : processItem env c isg kw item = none) :
    ∀ (pre post : List XmlItem) (acc : List Article),
      parseLoop env c isg kw (pre ++ item :: post) acc = parseLoop env c isg kw (pre ++ post) acc := by
  intro pre
  induction pre with
  | nil =>
    intro post acc
    simp only [List.nil_append]
    by_cases hc : 15 ≤ acc.length
    · simp only [parseLoop]
      rw [if_pos hc, parseLoop_of_full env c isg kw post acc hc]
    · simp only [parseLoop]
      rw [if_neg hc, h]
  | cons p pre ih =>
    intro post acc
    simp only [List.cons_append, parseLoop]
    by_cases hc : 15 ≤ acc.length
    · rw [if_pos hc, if_pos hc]
    · rw [if_neg hc, if_neg hc]
      cases processItem env c isg kw p with
      | some a => exact ih post (acc ++ [a])
      | none => exact ih post acc

theorem str_data_append (a b : String) : (a ++ b).data = a.data ++ b.data := by
  cases a; cases b; rfl

theorem render_has_colon (e : ParseErr) : ':' ∈ (renderParseErr e).data := by
  unfold renderParseErr
  rw [str_data_append, str_data_append]
  refine List.mem_append_right _ (List.mem_append_left _ ?_)
  decide

theorem dateResult_parsed (env : Env) (c : Int) (raw : String) (d : Int)
    (hr : raw ≠ "") (hd : env.parsedate raw = some d) :
    dateResult env c raw = if d < c then none else some (env.formatDate d) := by
  unfold dateResult
  rw [if_neg hr, hd]

/-! Claim theorems. -/

/-- C1: for every raw XML input (via the parse environment), every
mandatory-keyword argument, and every evaluation time, the article list
returned by `fetch_news_cached` never exceeds the per-tab cap: the code
uses the constant 15 at every call site, so the length is at most 15, and
in particular within the 15-or-20 bound stated by the spec. -/
theorem cap_le_fifteen (env : Env) (g b : HttpAttempt) (kw : List String)
    (l : List Article) (err : Option String)
    (h : fetch_news_cached env g b kw = (some l, err)) : l.length ≤ 15 := by
  cases hf : fetchXml g b with
  | error msg => simp [fetch_news_cached, hf] at h
  | ok p =>
    obtain ⟨xml, isg⟩ := p
    cases hp : env.parseXml xml with
    | error e => simp [fetch_news_cached, hf, hp] at h
    | ok items =>
      simp only [fetch_news_cached, hf, hp, Prod.mk.injEq, Option.some.injEq] at h
      obtain ⟨hl, -⟩ := h
      rw [← hl]
      exact parseLoop_length_le env (cutoffOf env.now) isg kw items [] (by simp)

theorem cap_le_fifteen_witness : List.length ([] : List Article) ≤ 15 :=
  cap_le_fifteen envW gOkW .failure [] [] none (by decide)

/-- C4: if the primary call raises or its body lacks the rss marker, the
secondary endpoint is attempted exactly once before any failure is
reported; if the primary call succeeds with the marker present, the
secondary endpoint is never attempted (zero secondary attempts). -/
theorem fallback_attempted_once (g b : HttpAttempt) :
    (∀ content, g = .success content → hasSubStr content rssMarker = true →
       fetchXmlTrace g b = (.ok (content, true), 0)) ∧
    ((g = .failure ∨ ∃ content, g = .success content ∧ hasSubStr content rssMarker = false) →
       (fetchXmlTrace g b).2 = 1) ∧
    (∀ msg, (fetchXmlTrace g b).1 = .error msg → (fetchXmlTrace g b).2 = 1) := by
  refine ⟨?_, ?_, ?_⟩
  · intro content hg hm
    subst hg
    simp [fetchXmlTrace, hm]
  · rintro (rfl | ⟨content, rfl, hm⟩)
    · cases b <;> rfl
    · simp only [fetchXmlTrace, hm]
      rw [if_neg (by simp)]
      cases b <;> rfl
  · intro msg hmsg
    cases g with
    | failure => cases b <;> rfl
    | success content =>
      by_cases hm : hasSubStr content rssMarker
      · simp [fetchXmlTrace, hm] at hmsg
      · simp only [fetchXmlTrace]
        rw [if_neg (by simp [hm])]
        cases b <;> rfl

theorem fallback_attempted_once_witness : (fetchXmlTrace .failure .failure).2 = 1 :=
  (fallback_attempted_once .failure .failure).2.1 (Or.inl rfl)

/-- C5: when both endpoint calls fail, `fetch_news_cached` returns the
terminal failure `(none, some "Failed to load feeds.")`, with exactly one
secondary attempt and no further retries. -/
theorem both_endpoints_fail (env : Env) (kw : List String) :
    fetch_news_cached env .failure .failure kw = (none, some "Failed to load feeds.") ∧
    (fetchXmlTrace .failure .failure).2 = 1 :=
  ⟨rfl, rfl⟩

/-- C7: every value returned by `fetch_news_cached` is discriminated —
either a non-null article list (possibly empty) with a null error, or a
null list with a non-null error string; never both populated. -/
theorem fetch_result_discriminated (env : Env) (g b : HttpAttempt) (kw : List String) :
    (∃ l, fetch_news_cached env g b kw = (some l, none)) ∨
    (∃ msg, fetch_news_cached env g b kw = (none, some msg)) := by
  cases hf : fetchXml g b with
  | error msg => exact Or.inr ⟨msg, by simp [fetch_news_cached, hf]⟩
  | ok p =>
    obtain ⟨xml, isg⟩ := p
    cases hp : env.parseXml xml with
    | error e => exact Or.inr ⟨renderParseErr e, by simp [fetch_news_cached, hf, hp]⟩
    | ok items =>
      exact Or.inl ⟨parseLoop env (cutoffOf env.now) isg kw items [],
        by simp [fetch_news_cached, hf, hp]⟩

/-- C6: a fetched byte stream that does not parse as XML yields a terminal
failure whose error string is the parser error text, and that text is
distinct from the static fetch-failure message. -/
theorem parse_error_text (env : Env) (g b : HttpAttempt) (kw : List String)
    (xml : String) (isg : Bool) (e : ParseErr)
    (hf : fetchXml g b = .ok (xml, isg))
    (hp : env.parseXml xml = .error e) :
    fetch_news_cached env g b kw = (none, some (renderParseErr e)) ∧
    renderParseErr e ≠ "Failed to load feeds." := by
  constructor
  · simp [fetch_news_cached, hf, hp]
  · intro h
    have hc := render_has_colon e
    rw [h] at hc
    exact absurd hc (by decide)

theorem parse_error_text_witness :
    fetch_news_cached envW (HttpAttempt.success "<rss oops") HttpAttempt.failure [] =
      (none, some (renderParseErr ⟨"syntax error", 1, 0⟩)) ∧
    renderParseErr ⟨"syntax error", 1, 0⟩ ≠ "Failed to load feeds." :=
  parse_error_text envW (HttpAttempt.success "<rss oops") HttpAttempt.failure []
    "<rss oops" true ⟨"syntax error", 1, 0⟩ rfl rfl

/-- C2: for an item whose publication date string parses to the UTC instant
d, acceptance implies d is at or after the cutoff (evaluation time minus 14
days); an item strictly before the cutoff is skipped and contributes
nothing to the output of the loop wherever it occurs; an item at or after
the cutoff that passes the headline filter is kept. -/
theorem recency_window (env : Env) (now : Int) (is_google : Bool) (kw : List String)
    (item : XmlItem) (d : Int)
    (hr : textOr item.pubDate "" ≠ "")
    (hd : env.parsedate (textOr item.pubDate "") = some d) :
    (∀ a, processItem env (cutoffOf now) is_google kw item = some a → cutoffOf now ≤ d) ∧
    (d < cutoffOf now →
      processItem env (cutoffOf now) is_google kw item = none ∧
      ∀ (pre post : List XmlItem) (acc : List Article),
        parseLoop env (cutoffOf now) is_google kw (pre ++ item :: post) acc =
          parseLoop env (cutoffOf now) is_google kw (pre ++ post) acc) ∧
    (cutoffOf now ≤ d → keywordPass kw (cleanTitle env item) = true →
      processItem env (cutoffOf now) is_google kw item ≠ none) := by
  have hdr := dateResult_parsed env (cutoffOf now) (textOr item.pubDate "") d hr hd
  refine ⟨?_, ?_, ?_⟩
  · intro a ha
    by_contra hlt
    rw [not_le] at hlt
    rw [if_pos hlt] at hdr
    simp only [processItem, hdr] at ha
    split at ha
    · exact Option.noConfusion ha
    · exact Option.noConfusion ha
  · intro hlt
    rw [if_pos hlt] at hdr
    have hnone : processItem env (cutoffOf now) is_google kw item = none := by
      simp only [processItem, hdr]
      split <;> rfl
    exact ⟨hnone, fun pre post acc =>
      parseLoop_skip env (cutoffOf now) is_google kw item hnone pre post acc⟩
  · intro hle hk hnone
    rw [if_neg (not_lt.mpr hle)] at hdr
    simp only [processItem, hk, if_true, hdr] at hnone
    exact Option.noConfusion hnone

theorem recency_window_witness :
    processItem envW (cutoffOf (14 * 86400)) true [] itemD0 ≠ none :=
  (recency_window envW (14 * 86400) true [] itemD0 0 (by decide) (by decide)).2.2
    (by decide) (by decide)

/-- C3: under a non-empty mandatory-keyword collection, an accepted item
has at least one keyword as a substring of its lowercased cleaned title,
and an item containing none of the keywords is skipped, contributing
nothing to the loop output (so it neither appears nor counts toward the
cap). -/
theorem mandatory_keyword_filter (env : Env) (c : Int) (is_google : Bool)
    (kw : List String) (item : XmlItem) (hkw : kw ≠ []) :
    (∀ a, processItem env c is_google kw item = some a →
       ∃ w, w ∈ kw ∧ hasSubStr (lowerStr (cleanTitle env item)) w = true) ∧
    ((∀ w, w ∈ kw → hasSubStr (lowerStr (cleanTitle env item)) w = false) →
       processItem env c is_google kw item = none ∧
       ∀ (pre post : List XmlItem) (acc : List Article),
         parseLoop env c is_google kw (pre ++ item :: post) acc =
           parseLoop env c is_google kw (pre ++ post) acc) := by
  constructor
  · intro a ha
    by_cases hk : keywordPass kw (cleanTitle env item) = true
    · unfold keywordPass at hk
      rw [if_neg hkw] at hk
      simpa using List.any_eq_true.mp hk
    · simp only [processItem] at ha
      rw [if_neg hk] at ha
      exact Option.noConfusion ha
  · intro hall
    have hk : keywordPass kw (cleanTitle env item) = false := by
      unfold keywordPass
      rw [if_neg hkw]
      simpa using hall
    have hnone : processItem env c is_google kw item = none := by
      simp only [processItem, hk]
      rfl
    exact ⟨hnone, fun pre post acc =>
      parseLoop_skip env c is_google kw item hnone pre post acc⟩

theorem mandatory_keyword_filter_witness :
    processItem envW 0 true ["recall"] itemNoKw = none :=
  ((mandatory_keyword_filter envW 0 true ["recall"] itemNoKw (by decide)).2
    (by decide)).1

/-- C8: the source attribution of every accepted record follows the
provider rule (primary: split the cleaned title on the last separator when
present; secondary: prefer an explicit source element, fall back to the
separator split; otherwise the literal Industry News), stated as equality
with a definition transcribed from the spec wording, together with the
fact that every accepted record carries exactly the stripped components of
that split, and the spec scenario for the Acme title. -/
theorem source_attribution :
    (∀ (is_google : Bool) (source_el : Option String) (t : String),
       splitSource is_google source_el t = splitSourceSpec is_google source_el t) ∧
    (∀ (env : Env) (c : Int) (is_google : Bool) (kw : List String) (item : XmlItem) (a : Article),
       processItem env c is_google kw item = some a →
       a.title = stripStr (splitSource is_google item.source (cleanTitle env item)).1 ∧
       a.source = stripStr (splitSource is_google item.source (cleanTitle env item)).2) ∧
    splitSource true none "Acme Corp Buys Rival Fleet - TruckingNews" =
      ("Acme Corp Buys Rival Fleet", "TruckingNews") := by
  refine ⟨?_, ?_, by decide⟩
  · intro isg src t
    cases isg with
    | true =>
      by_cases hm : hasSubStr t " - " = true
      · simp [splitSource, splitSourceSpec, hm]
      · simp [splitSource, splitSourceSpec, hm]
    | false => simp [splitSource, splitSourceSpec]
  · intro env c isg kw item a ha
    simp only [processItem] at ha
    split at ha
    · split at ha
      · rw [Option.some_inj] at ha
        subst ha
        exact ⟨rfl, rfl⟩
      · exact Option.noConfusion ha
    · exact Option.noConfusion ha

theorem source_attribution_witness :
    "Acme Corp Buys Rival Fleet" = stripStr (splitSource true none (cleanTitle envW itemSplitW)).1 ∧
    "TruckingNews" = stripStr (splitSource true none (cleanTitle envW itemSplitW)).2 :=
  source_attribution.2.1 envW 0 true [] itemSplitW
    ⟨"Acme Corp Buys Rival Fleet", "http://x", "Jan 01, 1970", "TruckingNews"⟩ (by decide)

/-- C9: with an empty mandatory-keyword collection the headline filter is
not applied — every item passes it — although the bare any-test over the
empty collection is false (a literal at-least-one reading would exclude
everything); with the empty collection an item is skipped exactly when its
date parses to an instant strictly before the cutoff. -/
theorem empty_keywords_pass (env : Env) (c : Int) (is_google : Bool) (item : XmlItem) :
    keywordPass [] (cleanTitle env item) = true ∧
    ([] : List String).any (fun w => hasSubStr (lowerStr (cleanTitle env item)) w) = false ∧
    (processItem env c is_google [] item = none ↔
      textOr item.pubDate "" ≠ "" ∧
      ∃ d, env.parsedate (textOr item.pubDate "") = some d ∧ d < c) := by
  refine ⟨rfl, rfl, ?_⟩
  simp only [processItem, keywordPass, if_pos rfl, if_true]
  by_cases hr : textOr item.pubDate "" = ""
  · rw [show dateResult env c (textOr item.pubDate "") = some "Recent" by
      unfold dateResult; rw [if_pos hr]]
    simp [hr]
  · cases hp : env.parsedate (textOr item.pubDate "") with
    | none =>
      rw [show dateResult env c (textOr item.pubDate "") =
          some (takePre 16 (textOr item.pubDate "")) by
        unfold dateResult; rw [if_neg hr, hp]]
      simp [hp]
    | some d =>
      rw [dateResult_parsed env c (textOr item.pubDate "") d hr hp]
      by_cases hlt : d < c
      · rw [if_pos hlt]
        simp [hr, hlt]
      · rw [if_neg hlt]
        constructor
        · intro h; exact Option.noConfusion h
        · rintro ⟨-, d2, hd2, hlt2⟩
          exact absurd (Option.some_inj.mp hd2 ▸ hlt2) hlt

theorem empty_keywords_pass_witness :
    keywordPass [] (cleanTitle envW itemD0) = true ∧
    processItem envW 0 true [] itemD0 ≠ none := by
  have h := empty_keywords_pass envW 0 true itemD0
  refine ⟨h.1, fun hn => ?_⟩
  obtain ⟨-, d, hd, hlt⟩ := h.2.2.mp hn
  have h0 : envW.parsedate (textOr itemD0.pubDate "") = some 0 := by decide
  rw [h0, Option.some_inj] at hd
  rw [← hd] at hlt
  exact absurd hlt (by decide)

/-- C10: the mandatory-keyword filter is evaluated on the cleaned title
before the separator split, so an item is accepted whenever some keyword
occurs in the lowercased cleaned title and the date passes, with the
record fields taken from the split; in particular, when the keyword does
not occur in the stripped pre-separator part, the accepted record has a
title the keyword is absent from. -/
theorem keyword_checked_before_split (env : Env) (c : Int) (is_google : Bool)
    (kw : List String) (w : String) (item : XmlItem) (ds : String)
    (hw : w ∈ kw)
    (hsub : hasSubStr (lowerStr (cleanTitle env item)) w = true)
    (hdate : dateResult env c (textOr item.pubDate "") = some ds) :
    processItem env c is_google kw item =
      some { title := stripStr (splitSource is_google item.source (cleanTitle env item)).1,
             link := textOr item.link "#",
             date := ds,
             source := stripStr (splitSource is_google item.source (cleanTitle env item)).2 } ∧
    (hasSubStr (lowerStr (stripStr (splitSource is_google item.source (cleanTitle env item)).1)) w = false →
      ∃ a, processItem env c is_google kw item = some a ∧
        hasSubStr (lowerStr a.title) w = false) := by
  have hk : keywordPass kw (cleanTitle env item) = true := by
    unfold keywordPass
    by_cases hkw : kw = []
    · rw [if_pos hkw]
    · rw [if_neg hkw]
      exact List.any_eq_true.mpr ⟨w, hw, hsub⟩
  have hmain : processItem env c is_google kw item =
      some { title := stripStr (splitSource is_google item.source (cleanTitle env item)).1,
             link := textOr item.link "#",
             date := ds,
             source := stripStr (splitSource is_google item.source (cleanTitle env item)).2 } := by
    simp only [processItem, hk, if_true, hdate]
  exact ⟨hmain, fun habs => ⟨_, hmain, habs⟩⟩

theorem keyword_checked_before_split_witness :
    processItem envW 0 true ["recall"] itemSuffix =
      some ⟨"Fleet Market Update", "http://y", "Jan 01, 1970", "NHTSA Recall News"⟩ ∧
    hasSubStr (lowerStr "Fleet Market Update") "recall" = false := by
  have h := keyword_checked_before_split envW 0 true ["recall"] "recall" itemSuffix
    "Jan 01, 1970" (by decide) (by decide) (by decide)
  exact ⟨h.1, by decide⟩

end TLDNews
